import Mathlib

/-!
Verification of the mp3-to-video frame-synthesis core.

Shallow embedding of the Python sources in src/core: audio feature
extraction (audio_processor.py), the bounded result cache
(cache_manager.py), slideshow background scheduling and the frame
effect pipeline (video_generator.py, effects.py), and the band
normalization of the bars visualizer (visualizers.py).

Python floats are modelled as rationals (reals where the exponential
function is involved); numpy arrays as entry functions with explicit
shape; fallible indexing returns Option.
-/

/-- Truncation toward zero: the semantics of the Python builtin int() on a
rational value. -/
def pyInt (q : ℚ) : ℤ := if 0 ≤ q then ⌊q⌋ else -⌊-q⌋

/-- Python modulo on rationals; for a positive divisor the result is the
floored remainder, matching the Python float percent operator. -/
def pyMod (a b : ℚ) : ℚ := a - b * ⌊a / b⌋

/-- A dense two-dimensional numpy array: its shape and an entry function. -/
structure NDMatrix where
  numRows : ℕ
  numCols : ℕ
  entry : ℕ → ℕ → ℚ

/-- Entry j of np.linspace(a, b, n): n evenly spaced points from a to b,
endpoints included; a single-point linspace is just the start point. -/
def linspaceEntry (a b : ℚ) (n : ℕ) (j : ℕ) : ℚ :=
  if n ≤ 1 then a else a + (b - a) * j / ((n : ℚ) - 1)

/-- np.interp evaluated at x against the integer grid 0, 1, ..., m - 1 with
ordinate values f: constant clamping outside the grid, linear interpolation
between adjacent grid points inside it. -/
def npInterpGrid (m : ℕ) (f : ℕ → ℚ) (x : ℚ) : ℚ :=
  if x ≤ 0 then f 0
  else if (m : ℚ) - 1 ≤ x then f (m - 1)
  else f ⌊x⌋.toNat + (f (⌊x⌋.toNat + 1) - f ⌊x⌋.toNat) * (x - ⌊x⌋)

/-- AudioProcessor.compute_spectrum (src/core/audio_processor.py).
The short-time Fourier transform is an external librosa call, so it enters
as the parameter stftMagnitude mapping the chosen hop length to the mag-
nitude matrix (rows are frequency bins, columns are time frames).
num_frames is int(duration * frame_rate); the hop length is the floor
division of the sample count by num_frames, falling back to 512; when the
raw column count differs from num_frames every bin row is linearly
resampled onto num_frames evenly spaced sample points. -/
def compute_spectrum (stftMagnitude : ℤ → NDMatrix) (audioLen : ℕ)
    (duration : ℚ) (frame_rate : ℚ) : NDMatrix :=
  let num_frames : ℤ := pyInt (duration * frame_rate)
  let hop_length : ℤ := if 0 < num_frames then (audioLen : ℤ) / num_frames else 512
  let magnitude := stftMagnitude hop_length
  if magnitude.numCols ≠ num_frames.toNat then
    { numRows := magnitude.numRows
      numCols := num_frames.toNat
      entry := fun i j =>
        npInterpGrid magnitude.numCols (magnitude.entry i)
          (linspaceEntry 0 ((magnitude.numCols : ℚ) - 1) num_frames.toNat j) }
  else magnitude

/-- Mean of the values f b for b ranging over the interval [start, stop). -/
def binRangeMean (f : ℕ → ℚ) (start stop : ℕ) : ℚ :=
  (((List.range (stop - start)).map (fun k => f (start + k))).sum) / ((stop - start : ℕ) : ℚ)

/-- AudioProcessor.get_frequency_bands (src/core/audio_processor.py).
Buckets the FFT bins of the given spectrum matrix into num_bands bands with
quadratic spacing; each band value is the mean magnitude over its bin range
and a band whose range is empty stays 0.  Rows of the result are time
frames, columns are bands. -/
def get_frequency_bands (spectrum : NDMatrix) (num_bands : ℕ) : NDMatrix :=
  let n_fft := spectrum.numRows
  { numRows := spectrum.numCols
    numCols := num_bands
    entry := fun t i =>
      let start_bin := (pyInt (((i : ℚ) / (num_bands : ℚ)) ^ 2 * (n_fft : ℚ))).toNat
      let end_bin :=
        min (pyInt ((((i : ℚ) + 1) / (num_bands : ℚ)) ^ 2 * (n_fft : ℚ))).toNat n_fft
      if start_bin < end_bin then binRangeMean (fun b => spectrum.entry b t) start_bin end_bin
      else 0 }

/-- numpy integer indexing along an axis of length n: a negative index counts
from the end of the axis and an index out of the range [-n, n) raises an
IndexError, modelled as none. -/
def npIndex (n : ℕ) (i : ℤ) : Option ℕ :=
  if 0 ≤ i ∧ i < (n : ℤ) then some i.toNat
  else if -(n : ℤ) ≤ i ∧ i < 0 then some (i + (n : ℤ)).toNat
  else none

/-- AudioProcessor.get_frame_spectrum (src/core/audio_processor.py), applied
to an already computed spectrum matrix: a frame number at or above the
column count is first clamped to the last column, then the column is
selected by numpy indexing. -/
def get_frame_spectrum (spectrum : NDMatrix) (frame_number : ℤ) : Option (ℕ → ℚ) :=
  let f :=
    if (spectrum.numCols : ℤ) ≤ frame_number then (spectrum.numCols : ℤ) - 1
    else frame_number
  (npIndex spectrum.numCols f).map (fun j => fun r => spectrum.entry r j)

/-- AudioProcessor.get_frame_bands (src/core/audio_processor.py), applied to
an already computed spectrum matrix: builds the band matrix, clamps a frame
number at or above the row count to the last row, then selects the row by
numpy indexing. -/
def get_frame_bands (spectrum : NDMatrix) (num_bands : ℕ) (frame_number : ℤ) :
    Option (ℕ → ℚ) :=
  let bands := get_frequency_bands spectrum num_bands
  let f :=
    if (bands.numRows : ℤ) ≤ frame_number then (bands.numRows : ℤ) - 1
    else frame_number
  (npIndex bands.numRows f).map (fun t => fun i => bands.entry t i)

/-- Minimum of a list of rationals, 0 on the empty list; np.min is only
called on nonempty arrays in the embedded code. -/
def listMin : List ℚ → ℚ
  | [] => 0
  | x :: xs => xs.foldl min x

/-- Maximum of a list of rationals, 0 on the empty list; np.max is only
called on nonempty arrays in the embedded code. -/
def listMax : List ℚ → ℚ
  | [] => 0
  | x :: xs => xs.foldl max x

/-- The nearest-beat distance in frame units computed inside
AudioProcessor.get_beat_strength: the minimum over all beat times of the
absolute time difference to frame_number / frame_rate, scaled by
frame_rate. -/
def frameDist (beat_times : List ℚ) (frame_rate : ℚ) (frame_number : ℕ) : ℚ :=
  listMin (beat_times.map (fun bt => |bt - (frame_number : ℚ) / frame_rate|)) * frame_rate

/-- AudioProcessor.get_beat_strength (src/core/audio_processor.py): 0 on an
empty beat list; otherwise exp(-d / 3) clipped to [0, 1] when the
nearest-beat frame distance d is below 10, else 0. -/
noncomputable def get_beat_strength (beat_times : List ℚ) (frame_rate : ℚ)
    (frame_number : ℕ) : ℝ :=
  if beat_times = [] then 0
  else
    let frame_diff := frameDist beat_times frame_rate frame_number
    if frame_diff < 10 then min (max (Real.exp (-(frame_diff : ℝ) / 3)) 0) 1
    else 0

/-- Tagged access-count keys of CacheManager: the Python code builds the
strings spectrum_n, bands_n_m and image_p, whose three shapes never
collide. -/
inductive AccessKey where
  | spectrumKey (frame_number : ℤ)
  | bandsKey (frame_number num_bands : ℤ)
  | imageKey (image_path : String)
deriving DecidableEq

/-- Insertion into an insertion-ordered association list with Python dict
semantics: overwriting an existing key keeps its position, a new key is
appended at the end. -/
def dictInsert {κ ν : Type} [DecidableEq κ] : List (κ × ν) → κ → ν → List (κ × ν)
  | [], k, x => [(k, x)]
  | (k₀, x₀) :: rest, k, x =>
    if k₀ = k then (k, x) :: rest else (k₀, x₀) :: dictInsert rest k x

/-- Lookup in an association list, first matching key. -/
def dictGet {κ ν : Type} [DecidableEq κ] : List (κ × ν) → κ → Option ν
  | [], _ => none
  | (k₀, x) :: rest, k => if k₀ = k then some x else dictGet rest k

/-- Deletion of a key from an association list, first occurrence. -/
def dictRemove {κ ν : Type} [DecidableEq κ] : List (κ × ν) → κ → List (κ × ν)
  | [], _ => []
  | (k₀, x) :: rest, k => if k₀ = k then rest else (k₀, x) :: dictRemove rest k

/-- Keys of an association list in insertion order. -/
def dictKeys {κ ν : Type} (d : List (κ × ν)) : List κ := d.map Prod.fst

/-- CacheManager (src/core/cache_manager.py): three insertion-ordered caches
plus the shared access-count dictionary; values are type parameters since
the cached buffers are opaque to the eviction logic. -/
structure CacheManager (α β γ : Type) where
  max_size : ℕ
  spectrum_cache : List (ℤ × α)
  bands_cache : List ((ℤ × ℤ) × β)
  image_cache : List (String × γ)
  access_count : List (AccessKey × ℕ)

/-- Recorded access count of a key, 0 when absent, as
self._access_count.get(key, 0). -/
def accessCountOf (ac : List (AccessKey × ℕ)) (k : AccessKey) : ℕ :=
  (dictGet ac k).getD 0

/-- The scan inside CacheManager._evict_lru: walk the cache keys in order
keeping the first key whose recorded count is strictly below the best so
far, starting from an infinite best count (modelled by none). -/
def evictScan {κ : Type} (counts : κ → ℕ) : Option (κ × ℕ) → List κ → Option (κ × ℕ)
  | best, [] => best
  | best, k :: ks =>
    let c := counts k
    let better : Bool :=
      match best with
      | none => true
      | some (_, best_count) => decide (c < best_count)
    evictScan counts (if better then some (k, c) else best) ks

/-- CacheManager._evict_lru specialised to one typed cache, with tag giving
the access-count key of a cache key: on a nonempty cache, removes the entry
with the minimum recorded access count (first found on ties) together with
its access-count record. -/
def evict_lru {κ ν : Type} [DecidableEq κ] (tag : κ → AccessKey)
    (cache : List (κ × ν)) (ac : List (AccessKey × ℕ)) :
    List (κ × ν) × List (AccessKey × ℕ) :=
  match cache with
  | [] => (cache, ac)
  | _ :: _ =>
    match evictScan (fun k => accessCountOf ac (tag k)) none (dictKeys cache) with
    | some (min_key, _) => (dictRemove cache min_key, dictRemove ac (tag min_key))
    | none => (cache, ac)

/-- CacheManager.cache_spectrum: evicts when the spectrum cache has reached
max_size, then stores the value and resets its access count to 0. -/
def cache_spectrum {α β γ : Type} (cm : CacheManager α β γ) (frame_number : ℤ)
    (spectrum : α) : CacheManager α β γ :=
  let pair :=
    if cm.max_size ≤ cm.spectrum_cache.length then
      evict_lru AccessKey.spectrumKey cm.spectrum_cache cm.access_count
    else (cm.spectrum_cache, cm.access_count)
  { cm with
    spectrum_cache := dictInsert pair.1 frame_number spectrum
    access_count := dictInsert pair.2 (AccessKey.spectrumKey frame_number) 0 }

/-- CacheManager.get_spectrum: on a hit, bumps the access count and returns
the stored value; on a miss returns none and leaves the state unchanged. -/
def get_spectrum {α β γ : Type} (cm : CacheManager α β γ) (frame_number : ℤ) :
    Option α × CacheManager α β γ :=
  let key := AccessKey.spectrumKey frame_number
  match dictGet cm.spectrum_cache frame_number with
  | some v =>
    (some v,
     { cm with access_count := dictInsert cm.access_count key (accessCountOf cm.access_count key + 1) })
  | none => (none, cm)

/-- CacheManager.cache_bands: evicts when the bands cache has reached
max_size, then stores the value under the key (frame_number, num_bands) and
resets its access count to 0. -/
def cache_bands {α β γ : Type} (cm : CacheManager α β γ) (frame_number num_bands : ℤ)
    (bands : β) : CacheManager α β γ :=
  let pair :=
    if cm.max_size ≤ cm.bands_cache.length then
      evict_lru (fun k => AccessKey.bandsKey k.1 k.2) cm.bands_cache cm.access_count
    else (cm.bands_cache, cm.access_count)
  { cm with
    bands_cache := dictInsert pair.1 (frame_number, num_bands) bands
    access_count := dictInsert pair.2 (AccessKey.bandsKey frame_number num_bands) 0 }

/-- CacheManager.get_bands: hit bumps the access count and returns the
value, miss returns none. -/
def get_bands {α β γ : Type} (cm : CacheManager α β γ) (frame_number num_bands : ℤ) :
    Option β × CacheManager α β γ :=
  let key := AccessKey.bandsKey frame_number num_bands
  match dictGet cm.bands_cache (frame_number, num_bands) with
  | some v =>
    (some v,
     { cm with access_count := dictInsert cm.access_count key (accessCountOf cm.access_count key + 1) })
  | none => (none, cm)

/-- CacheManager.cache_image: evicts when the image cache has reached
max_size, then stores the value keyed by path and resets its access count
to 0. -/
def cache_image {α β γ : Type} (cm : CacheManager α β γ) (image_path : String)
    (image : γ) : CacheManager α β γ :=
  let pair :=
    if cm.max_size ≤ cm.image_cache.length then
      evict_lru AccessKey.imageKey cm.image_cache cm.access_count
    else (cm.image_cache, cm.access_count)
  { cm with
    image_cache := dictInsert pair.1 image_path image
    access_count := dictInsert pair.2 (AccessKey.imageKey image_path) 0 }

/-- CacheManager.get_image: hit bumps the access count and returns the
value, miss returns none. -/
def get_image {α β γ : Type} (cm : CacheManager α β γ) (image_path : String) :
    Option γ × CacheManager α β γ :=
  let key := AccessKey.imageKey image_path
  match dictGet cm.image_cache image_path with
  | some v =>
    (some v,
     { cm with access_count := dictInsert cm.access_count key (accessCountOf cm.access_count key + 1) })
  | none => (none, cm)

/-- One public CacheManager operation, with ℕ standing in for the opaque
cached buffers. -/
inductive CacheOp where
  | putSpectrum (frame_number : ℤ) (v : ℕ)
  | putBands (frame_number num_bands : ℤ) (v : ℕ)
  | putImage (image_path : String) (v : ℕ)
  | readSpectrum (frame_number : ℤ)
  | readBands (frame_number num_bands : ℤ)
  | readImage (image_path : String)

/-- State transition of one CacheManager operation. -/
def execOp (cm : CacheManager ℕ ℕ ℕ) : CacheOp → CacheManager ℕ ℕ ℕ
  | .putSpectrum f v => cache_spectrum cm f v
  | .putBands f n v => cache_bands cm f n v
  | .putImage p v => cache_image cm p v
  | .readSpectrum f => (get_spectrum cm f).2
  | .readBands f n => (get_bands cm f n).2
  | .readImage p => (get_image cm p).2

/-- A freshly constructed CacheManager with the given max_size. -/
def emptyCache (max_size : ℕ) : CacheManager ℕ ℕ ℕ := ⟨max_size, [], [], [], []⟩

/-- Run a sequence of CacheManager operations from the empty state. -/
def runOps (max_size : ℕ) (ops : List CacheOp) : CacheManager ℕ ℕ ℕ :=
  ops.foldl execOp (emptyCache max_size)

/-- Outcome of BackgroundManager.get_background_for_frame, abstracting the
image loading: either the single-background path, an unmodified slide, or a
transition blend between two slides at a given progress. -/
inductive BackgroundChoice where
  | singleBackground
  | showSlide (slide_index : ℕ)
  | transitionSlides (slide_index next_slide_index : ℕ) (progress : ℚ)
deriving DecidableEq

/-- BackgroundManager.get_background_for_frame (src/core/video_generator.py),
slideshow scheduling only (image loading and the blend itself abstracted):
with no backgrounds or slideshow disabled it falls back to the single
background; otherwise it splits the cycle of length interval + transition
duration at the interval boundary into an unmodified slide and a transition
with progress (cycle_position - interval) / transition_duration. -/
def get_background_for_frame (slideshow_enabled : Bool) (background_paths : List String)
    (slideshow_interval transition_duration : ℚ) (frame_rate : ℚ)
    (frame_number : ℕ) : BackgroundChoice :=
  if background_paths = [] ∨ slideshow_enabled = false then .singleBackground
  else
    let time_seconds : ℚ := (frame_number : ℚ) / frame_rate
    let total_interval := slideshow_interval + transition_duration
    let cycle_position := pyMod time_seconds total_interval
    let slide_index := (pyInt (time_seconds / total_interval)).toNat % background_paths.length
    let next_slide_index := (slide_index + 1) % background_paths.length
    if slideshow_interval ≤ cycle_position then
      .transitionSlides slide_index next_slide_index
        ((cycle_position - slideshow_interval) / transition_duration)
    else .showSlide slide_index

/-- An RGB pixel as integer channel values. -/
def Pixel : Type := ℤ × ℤ × ℤ

/-- An RGB raster image: its size and a pixel function over integer
coordinates. -/
@[ext]
structure Img where
  width : ℕ
  height : ℕ
  px : ℤ → ℤ → Pixel

/-- One channel of PIL Image.blend: the linear interpolation
c1 + progress * (c2 - c1) rounded to the nearest integer. -/
def blendChannel (c1 c2 : ℤ) (progress : ℚ) : ℤ :=
  round ((c1 : ℚ) + progress * ((c2 : ℚ) - (c1 : ℚ)))

/-- PIL Image.blend on two same-size RGB images: channelwise linear
interpolation, result sized like the first image. -/
def pyBlend (image1 image2 : Img) (progress : ℚ) : Img :=
  { width := image1.width
    height := image1.height
    px := fun x y =>
      ((blendChannel (image1.px x y).1 (image2.px x y).1 progress,
        blendChannel (image1.px x y).2.1 (image2.px x y).2.1 progress,
        blendChannel (image1.px x y).2.2 (image2.px x y).2.2 progress) : Pixel) }

/-- apply_fade_transition (src/core/effects.py): progress at or below 0
returns the first image unchanged, at or above 1 the second image
unchanged, otherwise the PIL blend of the two (the RGB mode conversion is
the identity in this RGB-only model). -/
def apply_fade_transition (image1 image2 : Img) (progress : ℚ) : Img :=
  if progress ≤ 0 then image1
  else if 1 ≤ progress then image2
  else pyBlend image1 image2 progress

/-- apply_slide_transition (src/core/effects.py): the same early returns at
progress 0 and 1; in between, both images are pasted at offsets computed
from the progress and the direction onto a black canvas sized like the
first image, the second paste winning where they overlap. -/
def apply_slide_transition (image1 image2 : Img) (progress : ℚ)
    (direction : String) : Img :=
  if progress ≤ 0 then image1
  else if 1 ≤ progress then image2
  else
    let w := image1.width
    let h := image1.height
    let pos1 : ℤ × ℤ :=
      if direction = "left" then (pyInt (-(w : ℚ) * progress), 0)
      else if direction = "right" then (pyInt ((w : ℚ) * progress), 0)
      else if direction = "up" then (0, pyInt (-(h : ℚ) * progress))
      else (0, pyInt ((h : ℚ) * progress))
    let pos2 : ℤ × ℤ :=
      if direction = "left" then (pyInt ((w : ℚ) * (1 - progress)), 0)
      else if direction = "right" then (pyInt (-(w : ℚ) * (1 - progress)), 0)
      else if direction = "up" then (0, pyInt ((h : ℚ) * (1 - progress)))
      else (0, pyInt (-(h : ℚ) * (1 - progress)))
    { width := w
      height := h
      px := fun x y =>
        if pos2.1 ≤ x ∧ x < pos2.1 + (image2.width : ℤ) ∧
           pos2.2 ≤ y ∧ y < pos2.2 + (image2.height : ℤ) then
          image2.px (x - pos2.1) (y - pos2.2)
        else if pos1.1 ≤ x ∧ x < pos1.1 + (image1.width : ℤ) ∧
                pos1.2 ≤ y ∧ y < pos1.2 + (image1.height : ℤ) then
          image1.px (x - pos1.1) (y - pos1.2)
        else ((0, 0, 0) : Pixel) }

/-- The render-time band normalization at the top of BarsVisualizer.render
(src/core/visualizers.py): divide by the frame maximum when it is positive,
otherwise leave the bands untouched. -/
def normalized_bands (bands : List ℚ) : List ℚ :=
  if 0 < listMax bands then bands.map (fun b => b / listMax bands) else bands

/-- Effects applicable in the beat and strobe section of
VideoGenerator.generate_frame. -/
inductive FrameEffect where
  | beatPulse
  | beatFlash
  | beatStrobe
  | beatZoom
  | plainStrobe
deriving DecidableEq

/-- Dispatch on beat_effect_type inside VideoGenerator.generate_frame; an
unknown type applies nothing. -/
def beat_effect_branch (beat_effect_type : String) : List FrameEffect :=
  if beat_effect_type = "pulse" then [.beatPulse]
  else if beat_effect_type = "flash" then [.beatFlash]
  else if beat_effect_type = "strobe" then [.beatStrobe]
  else if beat_effect_type = "zoom" then [.beatZoom]
  else []

/-- The beat and strobe section of VideoGenerator.generate_frame
(src/core/video_generator.py): the beat-synchronized branch runs only when
beat_sync_enabled, and the plain strobe branch only when strobe_enabled and
not beat_sync_enabled; the result lists the effects applied to the frame,
in order. -/
def applied_effects (beat_sync_enabled strobe_enabled : Bool)
    (beat_effect_type : String) : List FrameEffect :=
  (if beat_sync_enabled then beat_effect_branch beat_effect_type else [])
    ++ (if strobe_enabled && !beat_sync_enabled then [.plainStrobe] else [])

/-- Marks the four beat-synchronized effects. -/
def isBeatEffect : FrameEffect → Bool
  | .plainStrobe => false
  | _ => true

/-- Sample STFT collaborator used in concrete instances: one bin row, four
raw time frames, all magnitudes 0. -/
def stftEx : ℤ → NDMatrix := fun _ => ⟨1, 4, fun _ _ => 0⟩

/-- Sample 3 by 2 spectrum matrix used in concrete instances. -/
def specEx : NDMatrix := ⟨3, 2, fun i j => (i : ℚ) + (j : ℚ)⟩

/-- Sample image used in concrete instances. -/
def imgA : Img := ⟨2, 2, fun _ _ => ((10, 20, 30) : Pixel)⟩

/-- Second sample image used in concrete instances. -/
def imgB : Img := ⟨2, 2, fun _ _ => ((50, 60, 70) : Pixel)⟩

/-- Truncation agrees with the floor on nonnegative rationals. -/
theorem pyInt_of_nonneg (q : ℚ) (h : 0 ≤ q) : pyInt q = ⌊q⌋ := if_pos h

/-- The column count produced by compute_spectrum is always the truncated
product int(duration * frame_rate), whichever resampling branch is taken. -/
theorem compute_spectrum_numCols (stftMagnitude : ℤ → NDMatrix) (audioLen : ℕ)
    (duration frame_rate : ℚ) :
    (compute_spectrum stftMagnitude audioLen duration frame_rate).numCols
      = (pyInt (duration * frame_rate)).toNat := by
  simp only [compute_spectrum]
  split <;> split
  · rfl
  · next h => exact not_not.mp h
  · rfl
  · next h => exact not_not.mp h

/-- Clamping an at-or-above-range index to the last position and then
indexing yields the last position. -/
theorem npIndex_clamp (n : ℕ) (i : ℤ) (h1 : 1 ≤ n) (h2 : (n : ℤ) ≤ i) :
    npIndex n (if (n : ℤ) ≤ i then (n : ℤ) - 1 else i) = some (n - 1) := by
  rw [if_pos h2]
  unfold npIndex
  rw [if_pos ⟨by omega, by omega⟩]
  congr 1
  omega

/-- A negative index within range resolves to the offset from the end. -/
theorem npIndex_neg (n : ℕ) (i : ℤ) (h1 : -(n : ℤ) ≤ i) (h2 : i < 0) :
    npIndex n i = some (i + (n : ℤ)).toNat := by
  unfold npIndex
  rw [if_neg (by omega), if_pos ⟨h1, h2⟩]

/-- An index below the negative range raises. -/
theorem npIndex_out_of_range (n : ℕ) (i : ℤ) (h : i < -(n : ℤ)) :
    npIndex n i = none := by
  unfold npIndex
  rw [if_neg (by omega), if_neg (by omega)]

/-- Claim C1, counterexample: at duration 3/2 s and frame rate 1, the
spectrum returned by compute_spectrum has 1 time frame while
round(duration * frame_rate) is 2, so the frame count is not the rounded
product. -/
theorem c1_round_counterexample :
    (compute_spectrum stftEx 100 (3/2 : ℚ) 1).numCols = 1
    ∧ round ((3/2 : ℚ) * 1) = 2
    ∧ ((compute_spectrum stftEx 100 (3/2 : ℚ) 1).numCols : ℤ) ≠ round ((3/2 : ℚ) * 1) := by
  have h1 : (compute_spectrum stftEx 100 (3/2 : ℚ) 1).numCols = 1 := by
    rw [compute_spectrum_numCols]
    norm_num [pyInt]
  have h2 : round ((3/2 : ℚ) * 1) = 2 := by
    norm_num [round_eq]
  refine ⟨h1, h2, ?_⟩
  rw [h1, h2]
  decide

/-- Claim C1 (amended): for positive duration and frame rate, the spectrum
matrix returned by compute_spectrum has exactly floor(duration * frame_rate)
time frames, the truncation that int() performs, not the rounded product. -/
theorem c1_frame_count_floor (stftMagnitude : ℤ → NDMatrix) (audioLen : ℕ)
    (duration frame_rate : ℚ) (hd : 0 < duration) (hr : 0 < frame_rate) :
    ((compute_spectrum stftMagnitude audioLen duration frame_rate).numCols : ℤ)
      = ⌊duration * frame_rate⌋ := by
  have hq : (0 : ℚ) ≤ duration * frame_rate := (mul_pos hd hr).le
  rw [compute_spectrum_numCols, pyInt_of_nonneg _ hq]
  exact Int.toNat_of_nonneg (Int.floor_nonneg.mpr hq)

/-- Claim C1, witness: the amended frame-count law evaluated at the sample
STFT collaborator with duration 3/2 s and frame rate 1. -/
theorem c1_frame_count_floor_witness :
    ((compute_spectrum stftEx 100 (3/2 : ℚ) 1).numCols : ℤ) = ⌊(3/2 : ℚ) * 1⌋ :=
  c1_frame_count_floor stftEx 100 (3/2) 1 (by norm_num) (by norm_num)

/-- Claim C6: when the queried frame number is at or above the frame count,
get_frame_spectrum and get_frame_bands clamp the index to the last valid
frame and return that frame of data instead of raising. -/
theorem c6_clamps_upper (spectrum : NDMatrix) (num_bands : ℕ) (frame_number : ℤ)
    (h1 : 1 ≤ spectrum.numCols) (h2 : (spectrum.numCols : ℤ) ≤ frame_number) :
    get_frame_spectrum spectrum frame_number
      = some (fun r => spectrum.entry r (spectrum.numCols - 1))
    ∧ get_frame_bands spectrum num_bands frame_number
      = some (fun i => (get_frequency_bands spectrum num_bands).entry (spectrum.numCols - 1) i) := by
  constructor
  · show (npIndex spectrum.numCols
        (if (spectrum.numCols : ℤ) ≤ frame_number then (spectrum.numCols : ℤ) - 1
         else frame_number)).map (fun j => fun r => spectrum.entry r j) = _
    rw [npIndex_clamp _ _ h1 h2]
    rfl
  · show (npIndex (get_frequency_bands spectrum num_bands).numRows
        (if ((get_frequency_bands spectrum num_bands).numRows : ℤ) ≤ frame_number then
          ((get_frequency_bands spectrum num_bands).numRows : ℤ) - 1
         else frame_number)).map
        (fun t => fun i => (get_frequency_bands spectrum num_bands).entry t i) = _
    have hrows : (get_frequency_bands spectrum num_bands).numRows = spectrum.numCols := rfl
    rw [hrows, npIndex_clamp _ _ h1 h2]
    rfl

/-- Claim C6, witness: a frame number of 10 on the 2-frame sample spectrum
returns the data of frame 1 from both per-frame queries. -/
theorem c6_clamps_upper_witness :
    get_frame_spectrum specEx 10 = some (fun r => specEx.entry r (specEx.numCols - 1))
    ∧ get_frame_bands specEx 4 10
      = some (fun i => (get_frequency_bands specEx 4).entry (specEx.numCols - 1) i) :=
  c6_clamps_upper specEx 4 10 (by norm_num [specEx]) (by norm_num [specEx])

/-- Claim C9: a negative frame number in [-frameCount, 0) is not clamped but
indexes from the end, returning the data of frame frameCount + frame_number
from both per-frame queries, while a frame number below -frameCount raises
an index error; only the upper bound is clamped. -/
theorem c9_negative_indexing (spectrum : NDMatrix) (num_bands : ℕ) (frame_number : ℤ) :
    (-(spectrum.numCols : ℤ) ≤ frame_number → frame_number < 0 →
      get_frame_spectrum spectrum frame_number
        = some (fun r => spectrum.entry r (frame_number + (spectrum.numCols : ℤ)).toNat)
      ∧ get_frame_bands spectrum num_bands frame_number
        = some (fun i =>
            (get_frequency_bands spectrum num_bands).entry
              (frame_number + (spectrum.numCols : ℤ)).toNat i))
    ∧ (frame_number < -(spectrum.numCols : ℤ) →
      get_frame_spectrum spectrum frame_number = none
      ∧ get_frame_bands spectrum num_bands frame_number = none) := by
  have hrows : (get_frequency_bands spectrum num_bands).numRows = spectrum.numCols := rfl
  constructor
  · intro hlo hneg
    constructor
    · show (npIndex spectrum.numCols
          (if (spectrum.numCols : ℤ) ≤ frame_number then (spectrum.numCols : ℤ) - 1
           else frame_number)).map (fun j => fun r => spectrum.entry r j) = _
      rw [if_neg (by omega), npIndex_neg _ _ hlo hneg]
      rfl
    · show (npIndex (get_frequency_bands spectrum num_bands).numRows
          (if ((get_frequency_bands spectrum num_bands).numRows : ℤ) ≤ frame_number then
            ((get_frequency_bands spectrum num_bands).numRows : ℤ) - 1
           else frame_number)).map
          (fun t => fun i => (get_frequency_bands spectrum num_bands).entry t i) = _
      rw [hrows, if_neg (by omega), npIndex_neg _ _ hlo hneg]
      rfl
  · intro hout
    constructor
    · show (npIndex spectrum.numCols
          (if (spectrum.numCols : ℤ) ≤ frame_number then (spectrum.numCols : ℤ) - 1
           else frame_number)).map (fun j => fun r => spectrum.entry r j) = _
      rw [if_neg (by omega), npIndex_out_of_range _ _ hout]
      rfl
    · show (npIndex (get_frequency_bands spectrum num_bands).numRows
          (if ((get_frequency_bands spectrum num_bands).numRows : ℤ) ≤ frame_number then
            ((get_frequency_bands spectrum num_bands).numRows : ℤ) - 1
           else frame_number)).map
          (fun t => fun i => (get_frequency_bands spectrum num_bands).entry t i) = _
      rw [hrows, if_neg (by omega), npIndex_out_of_range _ _ hout]
      rfl

/-- Claim C9, witness: on the 2-frame sample spectrum, frame number -1
returns frame 1 of data and frame number -3 raises. -/
theorem c9_negative_indexing_witness :
    (get_frame_spectrum specEx (-1) = some (fun r => specEx.entry r ((-1) + (specEx.numCols : ℤ)).toNat)
      ∧ get_frame_bands specEx 4 (-1)
        = some (fun i => (get_frequency_bands specEx 4).entry ((-1) + (specEx.numCols : ℤ)).toNat i))
    ∧ (get_frame_spectrum specEx (-3) = none ∧ get_frame_bands specEx 4 (-3) = none) :=
  ⟨(c9_negative_indexing specEx 4 (-1)).1 (by norm_num [specEx]) (by norm_num),
   (c9_negative_indexing specEx 4 (-3)).2 (by norm_num [specEx])⟩

/-- A left fold of min starting from a nonnegative value over nonnegative
elements stays nonnegative. -/
theorem foldl_min_nonneg (l : List ℚ) :
    ∀ init : ℚ, 0 ≤ init → (∀ x ∈ l, 0 ≤ x) → 0 ≤ l.foldl min init := by
  induction l with
  | nil => intro init h0 _; simpa using h0
  | cons x xs ih =>
    intro init h0 hall
    simp only [List.foldl_cons]
    exact ih (min init x) (le_min h0 (hall x (List.mem_cons_self x xs)))
      (fun y hy => hall y (List.mem_cons_of_mem x hy))

/-- listMin of a list of nonnegative rationals is nonnegative. -/
theorem listMin_nonneg (l : List ℚ) (h : ∀ x ∈ l, 0 ≤ x) : 0 ≤ listMin l := by
  cases l with
  | nil => exact le_refl 0
  | cons x xs =>
    exact foldl_min_nonneg xs x (h x (List.mem_cons_self x xs))
      (fun y hy => h y (List.mem_cons_of_mem x hy))

/-- The nearest-beat frame distance is nonnegative for a nonnegative frame
rate. -/
theorem frameDist_nonneg (beat_times : List ℚ) (frame_rate : ℚ) (frame_number : ℕ)
    (hr : 0 ≤ frame_rate) : 0 ≤ frameDist beat_times frame_rate frame_number := by
  refine mul_nonneg (listMin_nonneg _ ?_) hr
  intro x hx
  rw [List.mem_map] at hx
  obtain ⟨bt, -, rfl⟩ := hx
  exact abs_nonneg _

/-- Within 10 frames of a beat the clip in get_beat_strength is inactive:
the strength is exactly the exponential of the scaled distance. -/
theorem get_beat_strength_eq_exp (beat_times : List ℚ) (frame_rate : ℚ)
    (frame_number : ℕ) (hne : beat_times ≠ []) (hr : 0 < frame_rate)
    (hlt : frameDist beat_times frame_rate frame_number < 10) :
    get_beat_strength beat_times frame_rate frame_number
      = Real.exp (-(frameDist beat_times frame_rate frame_number : ℝ) / 3) := by
  show (if beat_times = [] then (0 : ℝ)
    else if frameDist beat_times frame_rate frame_number < 10 then
      min (max (Real.exp (-(frameDist beat_times frame_rate frame_number : ℝ) / 3)) 0) 1
    else 0) = _
  rw [if_neg hne, if_pos hlt]
  have hd : (0 : ℝ) ≤ (frameDist beat_times frame_rate frame_number : ℝ) := by
    exact_mod_cast frameDist_nonneg beat_times frame_rate frame_number hr.le
  have h1 : Real.exp (-(frameDist beat_times frame_rate frame_number : ℝ) / 3) ≤ 1 := by
    rw [Real.exp_le_one_iff]
    linarith
  rw [max_eq_left (Real.exp_pos _).le, min_eq_left h1]

/-- Claim C2: with a nonempty beat list, the beat strength is exactly 1 at a
zero nearest-beat frame distance, equals exp(-d/3) (the clip to [0,1] being
inactive) while the distance d is below 10, is strictly decreasing in d on
that range, is exactly 0 once d reaches 10, and is 0 for an empty beat
list. -/
theorem c2_beat_strength (beat_times : List ℚ) (frame_rate : ℚ)
    (hne : beat_times ≠ []) (hr : 0 < frame_rate) :
    (∀ frame_number : ℕ, frameDist beat_times frame_rate frame_number = 0 →
      get_beat_strength beat_times frame_rate frame_number = 1)
    ∧ (∀ frame_number : ℕ, frameDist beat_times frame_rate frame_number < 10 →
      get_beat_strength beat_times frame_rate frame_number
        = Real.exp (-(frameDist beat_times frame_rate frame_number : ℝ) / 3))
    ∧ (∀ fn₁ fn₂ : ℕ,
      frameDist beat_times frame_rate fn₁ < frameDist beat_times frame_rate fn₂ →
      frameDist beat_times frame_rate fn₂ < 10 →
      get_beat_strength beat_times frame_rate fn₂
        < get_beat_strength beat_times frame_rate fn₁)
    ∧ (∀ frame_number : ℕ, 10 ≤ frameDist beat_times frame_rate frame_number →
      get_beat_strength beat_times frame_rate frame_number = 0)
    ∧ (∀ frame_number : ℕ, get_beat_strength [] frame_rate frame_number = 0) := by
  refine ⟨?_, ?_, ?_, ?_, ?_⟩
  · intro fn hzero
    rw [get_beat_strength_eq_exp beat_times frame_rate fn hne hr (by rw [hzero]; norm_num),
      hzero]
    norm_num
  · intro fn hlt
    exact get_beat_strength_eq_exp beat_times frame_rate fn hne hr hlt
  · intro fn₁ fn₂ h12 h2
    rw [get_beat_strength_eq_exp beat_times frame_rate fn₁ hne hr (lt_trans h12 h2),
      get_beat_strength_eq_exp beat_times frame_rate fn₂ hne hr h2]
    apply Real.exp_lt_exp.mpr
    have : (frameDist beat_times frame_rate fn₁ : ℝ) < frameDist beat_times frame_rate fn₂ := by
      exact_mod_cast h12
    linarith
  · intro fn h10
    show (if beat_times = [] then (0 : ℝ)
      else if frameDist beat_times frame_rate fn < 10 then
        min (max (Real.exp (-(frameDist beat_times frame_rate fn : ℝ) / 3)) 0) 1
      else 0) = 0
    rw [if_neg hne, if_neg (not_lt.mpr h10)]
  · intro fn
    show (if ([] : List ℚ) = [] then (0 : ℝ) else _) = 0
    rw [if_pos rfl]

/-- Claim C2, witness: with the single beat at 1 s and frame rate 30, frame
30 sits exactly on the beat and has strength 1, while frame 330 is 300
frames away and has strength 0. -/
theorem c2_beat_strength_witness :
    get_beat_strength [(1 : ℚ)] 30 30 = 1 ∧ get_beat_strength [(1 : ℚ)] 30 330 = 0 :=
  ⟨(c2_beat_strength [(1 : ℚ)] 30 (by simp) (by norm_num)).1 30
      (by norm_num [frameDist, listMin]),
   (c2_beat_strength [(1 : ℚ)] 30 (by simp) (by norm_num)).2.2.2.1 330
      (by norm_num [frameDist, listMin])⟩

/-- Claim C3: with capacity 2, caching spectrum A (key 0), reading A once,
caching B (key 1) and then caching C (key 2) evicts B, the entry with the
lowest recorded access count, leaving exactly A and C in the spectrum cache
with their access counts 1 and 0. -/
theorem c3_eviction_example :
    (runOps 2 [CacheOp.putSpectrum 0 7, CacheOp.readSpectrum 0,
      CacheOp.putSpectrum 1 8, CacheOp.putSpectrum 2 9]).spectrum_cache
      = [(0, 7), (2, 9)]
    ∧ (runOps 2 [CacheOp.putSpectrum 0 7, CacheOp.readSpectrum 0,
      CacheOp.putSpectrum 1 8, CacheOp.putSpectrum 2 9]).access_count
      = [(AccessKey.spectrumKey 0, 1), (AccessKey.spectrumKey 2, 0)] :=
  ⟨rfl, rfl⟩

/-- dictInsert grows an association list by at most one entry. -/
theorem dictInsert_length_le {κ ν : Type} [DecidableEq κ] (d : List (κ × ν))
    (k : κ) (x : ν) : (dictInsert d k x).length ≤ d.length + 1 := by
  induction d with
  | nil => simp [dictInsert]
  | cons p rest ih =>
    obtain ⟨k₀, x₀⟩ := p
    by_cases h : k₀ = k
    · simp [dictInsert, h]
    · simp only [dictInsert, if_neg h, List.length_cons]
      omega

/-- The eviction scan always selects a key when the key list is nonempty or
a best candidate is already at hand. -/
theorem evictScan_isSome {κ : Type} (counts : κ → ℕ) :
    ∀ (l : List κ) (best : Option (κ × ℕ)), best.isSome ∨ l ≠ [] →
      (evictScan counts best l).isSome := by
  intro l
  induction l with
  | nil =>
    intro best h
    rcases h with h | h
    · exact h
    · exact absurd rfl h
  | cons k ks ih =>
    intro best _
    cases best with
    | none =>
      show (evictScan counts (if true = true then some (k, counts k) else none) ks).isSome
      exact ih _ (Or.inl (by simp))
    | some p =>
      obtain ⟨k₀, c₀⟩ := p
      show (evictScan counts
        (if decide (counts k < c₀) = true then some (k, counts k) else some (k₀, c₀)) ks).isSome
      by_cases hc : counts k < c₀
      · rw [if_pos (by simpa using hc)]
        exact ih _ (Or.inl (by simp))
      · rw [if_neg (by simpa using hc)]
        exact ih _ (Or.inl (by simp))

/-- A key selected by the eviction scan is the incoming candidate or a
member of the scanned key list. -/
theorem evictScan_mem {κ : Type} (counts : κ → ℕ) :
    ∀ (l : List κ) (best : Option (κ × ℕ)) (k : κ) (c : ℕ),
      evictScan counts best l = some (k, c) → best = some (k, c) ∨ k ∈ l := by
  intro l
  induction l with
  | nil =>
    intro best k c h
    exact Or.inl h
  | cons k₁ ks ih =>
    intro best k c h
    have h' := ih _ k c h
    rcases h' with h' | h'
    · split at h'
      · obtain ⟨rfl, -⟩ : k₁ = k ∧ counts k₁ = c := by
          injection h' with h''
          exact ⟨congrArg Prod.fst h'', congrArg Prod.snd h''⟩
        exact Or.inr (List.mem_cons_self _ _)
      · exact Or.inl h'
    · exact Or.inr (List.mem_cons_of_mem _ h')

/-- Removing a present key shortens an association list by exactly one. -/
theorem dictRemove_length {κ ν : Type} [DecidableEq κ] (d : List (κ × ν)) (k : κ)
    (h : k ∈ dictKeys d) : (dictRemove d k).length + 1 = d.length := by
  induction d with
  | nil => simp [dictKeys] at h
  | cons p rest ih =>
    obtain ⟨k₀, x₀⟩ := p
    by_cases hk : k₀ = k
    · simp [dictRemove, hk]
    · have hmem : k ∈ dictKeys rest := by
        simp only [dictKeys, List.map_cons, List.mem_cons] at h
        rcases h with h | h
        · exact absurd h.symm hk
        · simpa [dictKeys] using h
      have hih := ih hmem
      simp only [dictRemove, if_neg hk, List.length_cons]
      omega

/-- Eviction from a nonempty cache removes exactly one entry. -/
theorem evict_lru_length {κ ν : Type} [DecidableEq κ] (tag : κ → AccessKey)
    (cache : List (κ × ν)) (ac : List (AccessKey × ℕ)) (h : cache ≠ []) :
    (evict_lru tag cache ac).1.length + 1 = cache.length := by
  cases cache with
  | nil => exact absurd rfl h
  | cons p rest =>
    have hsome := evictScan_isSome (fun k => accessCountOf ac (tag k)) (dictKeys (p :: rest))
      none (Or.inr (by simp [dictKeys]))
    obtain ⟨⟨k, c⟩, hk⟩ := Option.isSome_iff_exists.mp hsome
    have hmem : k ∈ dictKeys (p :: rest) := by
      rcases evictScan_mem (fun k => accessCountOf ac (tag k)) (dictKeys (p :: rest))
        none k c hk with h' | h'
      · exact absurd h' (by simp)
      · exact h'
    show (match evictScan (fun k => accessCountOf ac (tag k)) none (dictKeys (p :: rest)) with
      | some (min_key, _) => (dictRemove (p :: rest) min_key, dictRemove ac (tag min_key))
      | none => (p :: rest, ac)).1.length + 1 = (p :: rest).length
    rw [hk]
    exact dictRemove_length (p :: rest) k hmem

/-- The insert-after-conditional-eviction pattern common to cache_spectrum,
cache_bands and cache_image keeps the cache within a positive capacity. -/
theorem insert_after_evict_le {κ ν : Type} [DecidableEq κ] (tag : κ → AccessKey)
    (cache : List (κ × ν)) (ac : List (AccessKey × ℕ)) (m : ℕ) (k : κ) (x : ν)
    (hm : 1 ≤ m) (h : cache.length ≤ m) :
    (dictInsert (if m ≤ cache.length then evict_lru tag cache ac else (cache, ac)).1 k x).length
      ≤ m := by
  by_cases hc : m ≤ cache.length
  · rw [if_pos hc]
    have hne : cache ≠ [] := by
      intro h0
      rw [h0] at hc
      simp at hc
      omega
    have hlen := evict_lru_length tag cache ac hne
    have hins := dictInsert_length_le (evict_lru tag cache ac).1 k x
    omega
  · rw [if_neg hc]
    show (dictInsert cache k x).length ≤ m
    have hins := dictInsert_length_le cache k x
    omega

/-- One CacheManager operation preserves max_size and keeps all three
caches within a positive capacity. -/
theorem execOp_preserves (cm : CacheManager ℕ ℕ ℕ) (op : CacheOp)
    (hm : 1 ≤ cm.max_size)
    (h1 : cm.spectrum_cache.length ≤ cm.max_size)
    (h2 : cm.bands_cache.length ≤ cm.max_size)
    (h3 : cm.image_cache.length ≤ cm.max_size) :
    (execOp cm op).max_size = cm.max_size
    ∧ (execOp cm op).spectrum_cache.length ≤ cm.max_size
    ∧ (execOp cm op).bands_cache.length ≤ cm.max_size
    ∧ (execOp cm op).image_cache.length ≤ cm.max_size := by
  cases op with
  | putSpectrum f v =>
    exact ⟨rfl,
      insert_after_evict_le AccessKey.spectrumKey cm.spectrum_cache cm.access_count
        cm.max_size f v hm h1, h2, h3⟩
  | putBands f n v =>
    refine ⟨rfl, h1, ?_, h3⟩
    show (dictInsert
        (if cm.max_size ≤ cm.bands_cache.length then
          evict_lru (fun k => AccessKey.bandsKey k.1 k.2) cm.bands_cache cm.access_count
         else (cm.bands_cache, cm.access_count)).1 (f, n) v).length ≤ cm.max_size
    exact insert_after_evict_le (fun k => AccessKey.bandsKey k.1 k.2) cm.bands_cache
      cm.access_count cm.max_size (f, n) v hm h2
  | putImage p v =>
    exact ⟨rfl, h1, h2,
      insert_after_evict_le AccessKey.imageKey cm.image_cache cm.access_count
        cm.max_size p v hm h3⟩
  | readSpectrum f =>
    have hfix : (get_spectrum cm f).2.max_size = cm.max_size
        ∧ (get_spectrum cm f).2.spectrum_cache = cm.spectrum_cache
        ∧ (get_spectrum cm f).2.bands_cache = cm.bands_cache
        ∧ (get_spectrum cm f).2.image_cache = cm.image_cache := by
      simp only [get_spectrum]
      cases dictGet cm.spectrum_cache f <;> exact ⟨rfl, rfl, rfl, rfl⟩
    exact ⟨hfix.1, by rw [show (execOp cm (CacheOp.readSpectrum f)).spectrum_cache
        = cm.spectrum_cache from hfix.2.1]; exact h1,
      by rw [show (execOp cm (CacheOp.readSpectrum f)).bands_cache
        = cm.bands_cache from hfix.2.2.1]; exact h2,
      by rw [show (execOp cm (CacheOp.readSpectrum f)).image_cache
        = cm.image_cache from hfix.2.2.2]; exact h3⟩
  | readBands f n =>
    have hfix : (get_bands cm f n).2.max_size = cm.max_size
        ∧ (get_bands cm f n).2.spectrum_cache = cm.spectrum_cache
        ∧ (get_bands cm f n).2.bands_cache = cm.bands_cache
        ∧ (get_bands cm f n).2.image_cache = cm.image_cache := by
      simp only [get_bands]
      cases dictGet cm.bands_cache (f, n) <;> exact ⟨rfl, rfl, rfl, rfl⟩
    exact ⟨hfix.1, by rw [show (execOp cm (CacheOp.readBands f n)).spectrum_cache
        = cm.spectrum_cache from hfix.2.1]; exact h1,
      by rw [show (execOp cm (CacheOp.readBands f n)).bands_cache
        = cm.bands_cache from hfix.2.2.1]; exact h2,
      by rw [show (execOp cm (CacheOp.readBands f n)).image_cache
        = cm.image_cache from hfix.2.2.2]; exact h3⟩
  | readImage p =>
    have hfix : (get_image cm p).2.max_size = cm.max_size
        ∧ (get_image cm p).2.spectrum_cache = cm.spectrum_cache
        ∧ (get_image cm p).2.bands_cache = cm.bands_cache
        ∧ (get_image cm p).2.image_cache = cm.image_cache := by
      simp only [get_image]
      cases dictGet cm.image_cache p <;> exact ⟨rfl, rfl, rfl, rfl⟩
    exact ⟨hfix.1, by rw [show (execOp cm (CacheOp.readImage p)).spectrum_cache
        = cm.spectrum_cache from hfix.2.1]; exact h1,
      by rw [show (execOp cm (CacheOp.readImage p)).bands_cache
        = cm.bands_cache from hfix.2.2.1]; exact h2,
      by rw [show (execOp cm (CacheOp.readImage p)).image_cache
        = cm.image_cache from hfix.2.2.2]; exact h3⟩

/-- Folding any operation sequence preserves max_size and the cache
bounds. -/
theorem runOps_bounded_aux (ops : List CacheOp) :
    ∀ cm : CacheManager ℕ ℕ ℕ, 1 ≤ cm.max_size →
      cm.spectrum_cache.length ≤ cm.max_size →
      cm.bands_cache.length ≤ cm.max_size →
      cm.image_cache.length ≤ cm.max_size →
      (ops.foldl execOp cm).max_size = cm.max_size
      ∧ (ops.foldl execOp cm).spectrum_cache.length ≤ cm.max_size
      ∧ (ops.foldl execOp cm).bands_cache.length ≤ cm.max_size
      ∧ (ops.foldl execOp cm).image_cache.length ≤ cm.max_size := by
  induction ops with
  | nil => intro cm _ h1 h2 h3; exact ⟨rfl, h1, h2, h3⟩
  | cons op ops ih =>
    intro cm hm h1 h2 h3
    obtain ⟨e0, e1, e2, e3⟩ := execOp_preserves cm op hm h1 h2 h3
    have hrec := ih (execOp cm op) (by omega) (by omega) (by omega) (by omega)
    exact ⟨e0 ▸ hrec.1, e0 ▸ hrec.2.1, e0 ▸ hrec.2.2.1, e0 ▸ hrec.2.2.2⟩

/-- Claim C10: starting from an empty CacheManager with positive max_size,
after any sequence of cache and read operations each of the three internal
caches holds at most max_size entries; an insertion at capacity first
evicts exactly one minimum-count entry, which is what keeps the bound. -/
theorem c10_caches_bounded (max_size : ℕ) (ops : List CacheOp) (hm : 1 ≤ max_size) :
    (runOps max_size ops).spectrum_cache.length ≤ max_size
    ∧ (runOps max_size ops).bands_cache.length ≤ max_size
    ∧ (runOps max_size ops).image_cache.length ≤ max_size := by
  have h := runOps_bounded_aux ops (emptyCache max_size) hm (Nat.zero_le _)
    (Nat.zero_le _) (Nat.zero_le _)
  exact ⟨h.2.1, h.2.2.1, h.2.2.2⟩

/-- Claim C10, witness: capacity 1 with two spectrum insertions and one of
everything else stays within one entry per cache. -/
theorem c10_caches_bounded_witness :
    (runOps 1 [CacheOp.putSpectrum 0 5, CacheOp.putSpectrum 1 6,
      CacheOp.putBands 0 64 3, CacheOp.readSpectrum 1]).spectrum_cache.length ≤ 1
    ∧ (runOps 1 [CacheOp.putSpectrum 0 5, CacheOp.putSpectrum 1 6,
      CacheOp.putBands 0 64 3, CacheOp.readSpectrum 1]).bands_cache.length ≤ 1
    ∧ (runOps 1 [CacheOp.putSpectrum 0 5, CacheOp.putSpectrum 1 6,
      CacheOp.putBands 0 64 3, CacheOp.readSpectrum 1]).image_cache.length ≤ 1 :=
  c10_caches_bounded 1 [CacheOp.putSpectrum 0 5, CacheOp.putSpectrum 1 6,
    CacheOp.putBands 0 64 3, CacheOp.readSpectrum 1] (by decide)

/-- Claim C4: in slideshow mode with a nonempty path list, a frame at cycle
position below the interval shows slide floor(t / (interval + duration))
mod N unmodified, and otherwise is in transition from that slide to the
next with progress (cycle_position - interval) / duration; in particular
with interval 10 s, duration 1 s, 3 backgrounds, frame rate 30, the frame
at t = 10.5 s transitions from slide 0 to slide 1 with progress 1/2 and the
frame at t = 9.9 s shows slide 0 with no transition. -/
theorem c4_slideshow_schedule (background_paths : List String)
    (slideshow_interval transition_duration frame_rate : ℚ) (frame_number : ℕ)
    (hne : background_paths ≠ []) (hI : 0 ≤ slideshow_interval)
    (hD : 0 < transition_duration) (hr : 0 < frame_rate) :
    (pyMod ((frame_number : ℚ) / frame_rate) (slideshow_interval + transition_duration)
        < slideshow_interval →
      get_background_for_frame true background_paths slideshow_interval
          transition_duration frame_rate frame_number
        = BackgroundChoice.showSlide
            (⌊((frame_number : ℚ) / frame_rate) / (slideshow_interval + transition_duration)⌋.toNat
              % background_paths.length))
    ∧ (slideshow_interval ≤
        pyMod ((frame_number : ℚ) / frame_rate) (slideshow_interval + transition_duration) →
      get_background_for_frame true background_paths slideshow_interval
          transition_duration frame_rate frame_number
        = BackgroundChoice.transitionSlides
            (⌊((frame_number : ℚ) / frame_rate) / (slideshow_interval + transition_duration)⌋.toNat
              % background_paths.length)
            ((⌊((frame_number : ℚ) / frame_rate) / (slideshow_interval + transition_duration)⌋.toNat
              % background_paths.length + 1) % background_paths.length)
            ((pyMod ((frame_number : ℚ) / frame_rate) (slideshow_interval + transition_duration)
              - slideshow_interval) / transition_duration))
    ∧ get_background_for_frame true ["a", "b", "c"] 10 1 30 315
        = BackgroundChoice.transitionSlides 0 1 (1/2)
    ∧ get_background_for_frame true ["a", "b", "c"] 10 1 30 297
        = BackgroundChoice.showSlide 0 := by
  have ht : (0 : ℚ) ≤ (frame_number : ℚ) / frame_rate :=
    div_nonneg (Nat.cast_nonneg _) hr.le
  have hT : (0 : ℚ) < slideshow_interval + transition_duration := by linarith
  have hquot : (0 : ℚ) ≤
      ((frame_number : ℚ) / frame_rate) / (slideshow_interval + transition_duration) :=
    div_nonneg ht hT.le
  have hcond : ¬(background_paths = [] ∨ true = false) := by
    simp [hne]
  have hfl : pyInt (((frame_number : ℚ) / frame_rate) / (slideshow_interval + transition_duration))
      = ⌊((frame_number : ℚ) / frame_rate) / (slideshow_interval + transition_duration)⌋ :=
    pyInt_of_nonneg _ hquot
  refine ⟨?_, ?_, ?_, ?_⟩
  · intro hcp
    show (if background_paths = [] ∨ true = false then BackgroundChoice.singleBackground
      else if slideshow_interval ≤
          pyMod ((frame_number : ℚ) / frame_rate) (slideshow_interval + transition_duration) then
        BackgroundChoice.transitionSlides _ _ _
      else BackgroundChoice.showSlide
        ((pyInt (((frame_number : ℚ) / frame_rate) / (slideshow_interval + transition_duration))).toNat
          % background_paths.length)) = _
    rw [if_neg hcond, if_neg (not_le.mpr hcp), hfl]
  · intro hcp
    show (if background_paths = [] ∨ true = false then BackgroundChoice.singleBackground
      else if slideshow_interval ≤
          pyMod ((frame_number : ℚ) / frame_rate) (slideshow_interval + transition_duration) then
        BackgroundChoice.transitionSlides
          ((pyInt (((frame_number : ℚ) / frame_rate) / (slideshow_interval + transition_duration))).toNat
            % background_paths.length)
          (((pyInt (((frame_number : ℚ) / frame_rate) / (slideshow_interval + transition_duration))).toNat
            % background_paths.length + 1) % background_paths.length)
          ((pyMod ((frame_number : ℚ) / frame_rate) (slideshow_interval + transition_duration)
            - slideshow_interval) / transition_duration)
      else BackgroundChoice.showSlide _) = _
    rw [if_neg hcond, if_pos hcp, hfl]
  · show (if (["a", "b", "c"] : List String) = [] ∨ true = false then
        BackgroundChoice.singleBackground
      else if (10 : ℚ) ≤ pyMod ((315 : ℚ) / 30) (10 + 1) then
        BackgroundChoice.transitionSlides
          ((pyInt (((315 : ℚ) / 30) / (10 + 1))).toNat % (["a", "b", "c"] : List String).length)
          (((pyInt (((315 : ℚ) / 30) / (10 + 1))).toNat % (["a", "b", "c"] : List String).length + 1)
            % (["a", "b", "c"] : List String).length)
          ((pyMod ((315 : ℚ) / 30) (10 + 1) - 10) / 1)
      else BackgroundChoice.showSlide
        ((pyInt (((315 : ℚ) / 30) / (10 + 1))).toNat % (["a", "b", "c"] : List String).length)) = _
    have hm : pyMod ((315 : ℚ) / 30) (10 + 1) = 21/2 := by
      norm_num [pyMod]
    have hp : pyInt (((315 : ℚ) / 30) / (10 + 1)) = 0 := by
      norm_num [pyInt]
    rw [if_neg (by simp), if_pos (by rw [hm]; norm_num), hm, hp]
    norm_num
  · show (if (["a", "b", "c"] : List String) = [] ∨ true = false then
        BackgroundChoice.singleBackground
      else if (10 : ℚ) ≤ pyMod ((297 : ℚ) / 30) (10 + 1) then
        BackgroundChoice.transitionSlides _ _ _
      else BackgroundChoice.showSlide
        ((pyInt (((297 : ℚ) / 30) / (10 + 1))).toNat % (["a", "b", "c"] : List String).length)) = _
    have hm : pyMod ((297 : ℚ) / 30) (10 + 1) = 99/10 := by
      norm_num [pyMod]
    have hp : pyInt (((297 : ℚ) / 30) / (10 + 1)) = 0 := by
      norm_num [pyInt]
    rw [if_neg (by simp), if_neg (by rw [hm]; norm_num), hp]
    norm_num

/-- Claim C4, witness: the schedule law applied with 3 backgrounds at
interval 10 s, transition 1 s, frame rate 30, frame 315 (in transition). -/
theorem c4_slideshow_schedule_witness :
    get_background_for_frame true ["a", "b", "c"] 10 1 30 315
      = BackgroundChoice.transitionSlides 0 1 (1/2) :=
  (c4_slideshow_schedule ["a", "b", "c"] 10 1 30 315 (by simp) (by norm_num)
    (by norm_num) (by norm_num)).2.2.1

/-- Blending a channel with itself returns the channel value exactly. -/
theorem blendChannel_self (c : ℤ) (p : ℚ) : blendChannel c c p = c := by
  unfold blendChannel
  rw [show (c : ℚ) + p * ((c : ℚ) - (c : ℚ)) = (c : ℚ) by ring]
  exact round_intCast c

/-- Claim C5: both transitions return the first image unchanged at progress
0 and the second image unchanged at progress 1, and the fade of an image
with itself is the identity for every progress in [0, 1]. -/
theorem c5_transition_identities (a b : Img) (p : ℚ) (direction : String)
    (h0 : 0 ≤ p) (h1 : p ≤ 1) :
    apply_fade_transition a b 0 = a
    ∧ apply_fade_transition a b 1 = b
    ∧ apply_slide_transition a b 0 direction = a
    ∧ apply_slide_transition a b 1 direction = b
    ∧ ∀ img : Img, apply_fade_transition img img p = img := by
  refine ⟨?_, ?_, ?_, ?_, ?_⟩
  · rw [apply_fade_transition, if_pos le_rfl]
  · rw [apply_fade_transition, if_neg (by norm_num), if_pos le_rfl]
  · rw [apply_slide_transition, if_pos le_rfl]
  · rw [apply_slide_transition, if_neg (by norm_num), if_pos le_rfl]
  · intro img
    rw [apply_fade_transition]
    by_cases hp0 : p ≤ 0
    · rw [if_pos hp0]
    · rw [if_neg hp0]
      by_cases hp1 : 1 ≤ p
      · rw [if_pos hp1]
      · rw [if_neg hp1]
        ext x y
        · rfl
        · rfl
        · show ((blendChannel (img.px x y).1 (img.px x y).1 p,
            blendChannel (img.px x y).2.1 (img.px x y).2.1 p,
            blendChannel (img.px x y).2.2 (img.px x y).2.2 p) : Pixel) = img.px x y
          rw [blendChannel_self, blendChannel_self, blendChannel_self]
          rfl

/-- Claim C5, witness: the transition identities at the two sample images,
progress 1/2 and direction left. -/
theorem c5_transition_identities_witness :
    apply_fade_transition imgA imgB 0 = imgA
    ∧ apply_fade_transition imgA imgB 1 = imgB
    ∧ apply_slide_transition imgA imgB 0 ("left") = imgA
    ∧ apply_slide_transition imgA imgB 1 ("left") = imgB
    ∧ ∀ img : Img, apply_fade_transition img img (1/2) = img :=
  c5_transition_identities imgA imgB (1/2) ("left") (by norm_num) (by norm_num)

/-- A left fold of max is bounded by any common upper bound of the seed and
the elements. -/
theorem foldl_max_le (xs : List ℚ) :
    ∀ init c : ℚ, init ≤ c → (∀ x ∈ xs, x ≤ c) → xs.foldl max init ≤ c := by
  induction xs with
  | nil => intro init c h0 _; simpa using h0
  | cons x xs ih =>
    intro init c h0 hall
    simp only [List.foldl_cons]
    exact ih (max init x) c (max_le h0 (hall x (List.mem_cons_self x xs)))
      (fun y hy => hall y (List.mem_cons_of_mem x hy))

/-- The seed is below a left fold of max. -/
theorem le_foldl_max_init (xs : List ℚ) :
    ∀ init : ℚ, init ≤ xs.foldl max init := by
  induction xs with
  | nil => intro init; simp
  | cons x xs ih =>
    intro init
    simp only [List.foldl_cons]
    exact le_trans (le_max_left init x) (ih (max init x))

/-- Every element is below a left fold of max over its list. -/
theorem le_foldl_max_mem (xs : List ℚ) :
    ∀ (init : ℚ) (x : ℚ), x ∈ xs → x ≤ xs.foldl max init := by
  induction xs with
  | nil => intro init x hx; simp at hx
  | cons y ys ih =>
    intro init x hx
    simp only [List.foldl_cons]
    rcases List.mem_cons.mp hx with rfl | hx
    · exact le_trans (le_max_right init x) (le_foldl_max_init ys (max init x))
    · exact ih (max init y) x hx

/-- A left fold of max is the seed or an element of the list. -/
theorem foldl_max_mem (xs : List ℚ) :
    ∀ init : ℚ, xs.foldl max init = init ∨ xs.foldl max init ∈ xs := by
  induction xs with
  | nil => intro init; exact Or.inl rfl
  | cons x xs ih =>
    intro init
    simp only [List.foldl_cons]
    rcases ih (max init x) with h | h
    · rcases le_total init x with hc | hc
      · rw [h, max_eq_right hc]
        exact Or.inr (List.mem_cons_self x xs)
      · rw [h, max_eq_left hc]
        exact Or.inl rfl
    · exact Or.inr (List.mem_cons_of_mem x h)

/-- Every element of a list is below its listMax. -/
theorem le_listMax (l : List ℚ) (x : ℚ) (hx : x ∈ l) : x ≤ listMax l := by
  cases l with
  | nil => simp at hx
  | cons y ys =>
    rcases List.mem_cons.mp hx with rfl | hx
    · exact le_foldl_max_init ys x
    · exact le_foldl_max_mem ys y x hx

/-- listMax of a nonempty list is below any common upper bound. -/
theorem listMax_le (l : List ℚ) (c : ℚ) (hne : l ≠ []) (h : ∀ x ∈ l, x ≤ c) :
    listMax l ≤ c := by
  cases l with
  | nil => exact absurd rfl hne
  | cons y ys =>
    exact foldl_max_le ys y c (h y (List.mem_cons_self y ys))
      (fun x hx => h x (List.mem_cons_of_mem y hx))

/-- listMax of a nonempty list is one of its elements. -/
theorem listMax_mem (l : List ℚ) (hne : l ≠ []) : listMax l ∈ l := by
  cases l with
  | nil => exact absurd rfl hne
  | cons y ys =>
    rcases foldl_max_mem ys y with h | h
    · rw [listMax, h]
      exact List.mem_cons_self y ys
    · exact List.mem_cons_of_mem y h

/-- Claim C7: for a nonempty frame of nonnegative raw band values, the
render-time normalized band list has maximum exactly 1 whenever some band
is nonzero, and is the unchanged all-zero list otherwise; the raw input
list itself is never modified, the normalized list being a derived view. -/
theorem c7_normalized_bands_max (bands : List ℚ) (hne : bands ≠ [])
    (hnn : ∀ x ∈ bands, 0 ≤ x) :
    ((∃ x ∈ bands, x ≠ 0) → listMax (normalized_bands bands) = 1)
    ∧ ((∀ x ∈ bands, x = 0) →
      normalized_bands bands = bands ∧ ∀ x ∈ normalized_bands bands, x = 0) := by
  constructor
  · rintro ⟨b, hb, hb0⟩
    have hbpos : 0 < b := lt_of_le_of_ne (hnn b hb) (Ne.symm hb0)
    have hM : 0 < listMax bands := lt_of_lt_of_le hbpos (le_listMax bands b hb)
    rw [normalized_bands, if_pos hM]
    apply le_antisymm
    · apply listMax_le _ _ (by simpa using hne)
      intro x hx
      rw [List.mem_map] at hx
      obtain ⟨y, hy, rfl⟩ := hx
      exact (div_le_one hM).mpr (le_listMax bands y hy)
    · have hmem : listMax bands / listMax bands ∈ bands.map (fun v => v / listMax bands) :=
        List.mem_map_of_mem _ (listMax_mem bands hne)
      have hone : listMax bands / listMax bands = 1 := div_self (ne_of_gt hM)
      rw [← hone]
      exact le_listMax _ _ hmem
  · intro hz
    have hM : listMax bands = 0 := hz _ (listMax_mem bands hne)
    have hnot : ¬(0 < listMax bands) := by rw [hM]; exact lt_irrefl 0
    rw [normalized_bands, if_neg hnot]
    exact ⟨rfl, hz⟩

/-- Claim C7, witness: the frame [0, 2, 1] has a nonzero band and its
normalized view has maximum exactly 1. -/
theorem c7_normalized_bands_max_witness :
    listMax (normalized_bands [0, 2, 1]) = 1 :=
  (c7_normalized_bands_max [0, 2, 1] (by simp) (by norm_num)).1
    ⟨2, by norm_num, by norm_num⟩

/-- Claim C8: the beat-synchronized branch and the plain strobe branch of
generate_frame are mutually exclusive: no frame has both a beat effect and
the plain strobe applied, with beat sync enabled the plain strobe never
runs, and with beat sync disabled no beat effect runs. -/
theorem c8_beat_strobe_exclusive (beat_sync_enabled strobe_enabled : Bool)
    (beat_effect_type : String) :
    (¬(FrameEffect.plainStrobe ∈ applied_effects beat_sync_enabled strobe_enabled beat_effect_type
      ∧ ∃ e ∈ applied_effects beat_sync_enabled strobe_enabled beat_effect_type,
        isBeatEffect e = true))
    ∧ (beat_sync_enabled = true →
      FrameEffect.plainStrobe ∉ applied_effects beat_sync_enabled strobe_enabled beat_effect_type)
    ∧ (beat_sync_enabled = false →
      ∀ e ∈ applied_effects beat_sync_enabled strobe_enabled beat_effect_type,
        isBeatEffect e = false) := by
  cases beat_sync_enabled with
  | false =>
    cases strobe_enabled with
    | false =>
      refine ⟨?_, by intro h; exact absurd h (by simp), ?_⟩
      · rintro ⟨hmem, -⟩
        simp [applied_effects] at hmem
      · intro _ e he
        simp [applied_effects] at he
    | true =>
      refine ⟨?_, by intro h; exact absurd h (by simp), ?_⟩
      · rintro ⟨-, e, he, hbeat⟩
        simp [applied_effects] at he
        subst he
        simp [isBeatEffect] at hbeat
      · intro _ e he
        simp [applied_effects] at he
        subst he
        rfl
  | true =>
    have hnostrobe : FrameEffect.plainStrobe ∉
        applied_effects true strobe_enabled beat_effect_type := by
      intro hmem
      simp only [applied_effects, Bool.not_true, Bool.and_false, if_neg] at hmem
      rw [beat_effect_branch] at hmem
      split_ifs at hmem <;> simp_all
    refine ⟨?_, fun _ => hnostrobe, ?_⟩
    · rintro ⟨hmem, -⟩
      exact hnostrobe hmem
    · intro h
      exact absurd h (by simp)

/-- Claim C8, witness: with beat sync on and strobe also enabled, the plain
strobe is not among the applied effects. -/
theorem c8_beat_strobe_exclusive_witness :
    FrameEffect.plainStrobe ∉ applied_effects true true ("pulse") :=
  (c8_beat_strobe_exclusive true true ("pulse")).2.1 rfl
